import Mathlib

/-!
Verification of the meridian-runtime-examples repository against its
natural-language specification.

The development shallowly embeds the example nodes (producers, consumers,
validators, sinks, kill switch, worker) directly from the Python source under
`src/`.  The meridian/arachne *core* (scheduler, edge queueing, subgraph
validation) is not part of this repository; where a claim depends on core
behaviour, that behaviour is modelled from the specification and marked as
such in the doc comment of the corresponding definition.

Python `float` values are modelled as rationals, Python `int` as `Int`
(or `Nat` where the source value is manifestly a non-negative counter).
-/

namespace Meridian

/-- Message kinds of `meridian.core.MessageType` (and `arachne`): DATA,
CONTROL, ERROR. -/
inductive MessageType where
  | DATA
  | CONTROL
  | ERROR
deriving DecidableEq, Repr

/-- A message: a kind together with an opaque payload
(`meridian.core.Message`). -/
structure Message (α : Type) where
  type : MessageType
  payload : α
deriving DecidableEq, Repr

/-! ## streaming_coalesce domain model (src/examples/streaming_coalesce/main.py) -/

/-- The `WindowAgg` dataclass of `streaming_coalesce/main.py`:
`count : int`, `sum / min_v / max_v : float`. -/
structure WindowAgg where
  count : Int
  sum : ℚ
  min_v : ℚ
  max_v : ℚ
deriving DecidableEq, Repr

/-- The `avg` property of `WindowAgg`:
`return 0.0 if self.count == 0 else self.sum / self.count`. -/
def WindowAgg.avg (w : WindowAgg) : ℚ :=
  if w.count = 0 then 0 else w.sum / (w.count : ℚ)

/-- The `merge_window` function of `streaming_coalesce/main.py`. -/
def merge_window (a b : WindowAgg) : WindowAgg :=
  { count := a.count + b.count
    sum := a.sum + b.sum
    min_v := min a.min_v b.min_v
    max_v := max a.max_v b.max_v }

/-- The per-item aggregate built by `WindowAggNode._handle_message`:
`WindowAgg(count=1, sum=v, min_v=v, max_v=v)`. -/
def per_item_agg (v : ℚ) : WindowAgg :=
  { count := 1, sum := v, min_v := v, max_v := v }

/-- Coalescing a non-empty group of per-item aggregates with `merge_window`,
head value `v` and remaining values `rest` (left fold, as the Coalesce edge
applies the merge pairwise). -/
def coalesce_group (v : ℚ) (rest : List ℚ) : WindowAgg :=
  rest.foldl (fun acc w => merge_window acc (per_item_agg w)) (per_item_agg v)

/-- Payloads that may arrive at `WindowAggNode`: a `SensorReading`
(`ts : float`, `value : float`) or any other (non-`SensorReading`) value. -/
inductive AggPayload where
  | sensorReading (ts : ℚ) (value : ℚ)
  | other (tag : String)
deriving DecidableEq, Repr

/-- The body of `WindowAggNode._handle_message`: a `SensorReading` payload is
converted to a single DATA message carrying `WindowAgg(1, v, v, v)`; any other
payload is ignored (only a warning is logged) and nothing is emitted.  The
returned list is the list of messages emitted on port `out`. -/
def WindowAggNode.handle_message (msg : Message AggPayload) :
    List (Message WindowAgg) :=
  match msg.payload with
  | .sensorReading _ v => [⟨MessageType.DATA, per_item_agg v⟩]
  | .other _ => []

/-! ## Supporting lemmas for merge_window folds -/

theorem foldl_merge_count (l : List ℚ) (a : WindowAgg) :
    (l.foldl (fun acc w => merge_window acc (per_item_agg w)) a).count
      = a.count + l.length := by
  induction l generalizing a with
  | nil => simp
  | cons x xs ih =>
      rw [List.foldl_cons, ih]
      simp only [merge_window, per_item_agg, List.length_cons]
      push_cast
      ring

theorem foldl_merge_sum (l : List ℚ) (a : WindowAgg) :
    (l.foldl (fun acc w => merge_window acc (per_item_agg w)) a).sum
      = a.sum + l.sum := by
  induction l generalizing a with
  | nil => simp
  | cons x xs ih =>
      rw [List.foldl_cons, ih]
      simp only [merge_window, per_item_agg, List.sum_cons]
      ring

theorem coalesce_group_count (v : ℚ) (rest : List ℚ) :
    (coalesce_group v rest).count = 1 + rest.length := by
  unfold coalesce_group
  rw [foldl_merge_count]
  simp [per_item_agg]

theorem coalesce_group_sum (v : ℚ) (rest : List ℚ) :
    (coalesce_group v rest).sum = v + rest.sum := by
  unfold coalesce_group
  rw [foldl_merge_sum]
  simp [per_item_agg]

/-! ## Claim theorems: C2, C6, C10 -/

/-- C2: `merge_window` adds counts and sums and takes the min/max of the
bounds; it is associative and commutative; and coalescing the per-item
aggregates of any grouping of items (each group non-empty, given as head
plus tail) preserves the totals: the delivered counts sum to the total
number of items and the delivered sums sum to the sum of all item values. -/
theorem merge_window_algebra :
    (∀ a b : WindowAgg,
        (merge_window a b).count = a.count + b.count ∧
        (merge_window a b).sum = a.sum + b.sum ∧
        (merge_window a b).min_v = min a.min_v b.min_v ∧
        (merge_window a b).max_v = max a.max_v b.max_v) ∧
    (∀ a b c : WindowAgg,
        merge_window (merge_window a b) c = merge_window a (merge_window b c)) ∧
    (∀ a b : WindowAgg, merge_window a b = merge_window b a) ∧
    (∀ gs : List (ℚ × List ℚ),
        (gs.map fun g => (coalesce_group g.1 g.2).count).sum
            = ((gs.map fun g => g.1 :: g.2).flatten.length : Int) ∧
        (gs.map fun g => (coalesce_group g.1 g.2).sum).sum
            = ((gs.map fun g => g.1 :: g.2).flatten).sum) := by
  refine ⟨fun a b => ⟨rfl, rfl, rfl, rfl⟩, ?_, ?_, ?_⟩
  · intro a b c
    simp [merge_window, add_assoc, min_assoc, max_assoc]
  · intro a b
    simp [merge_window, add_comm, min_comm, max_comm]
  · intro gs
    induction gs with
    | nil => simp
    | cons g gs ih =>
        obtain ⟨ih1, ih2⟩ := ih
        constructor
        · rw [List.map_cons, List.sum_cons, ih1, List.map_cons,
            List.flatten_cons, coalesce_group_count]
          simp only [List.length_append, List.length_cons]
          push_cast
          ring
        · rw [List.map_cons, List.sum_cons, ih2, List.map_cons,
            List.flatten_cons, coalesce_group_sum]
          simp only [List.sum_append, List.sum_cons]

/-- C6: for every message delivered to `WindowAggNode`, a `SensorReading`
payload with value `v` produces exactly one DATA message with payload
`WindowAgg(count=1, sum=v, min_v=v, max_v=v)`, and any other payload
produces no emission. -/
theorem window_agg_node_emit (msg : Message AggPayload) :
    (∀ ts v, msg.payload = AggPayload.sensorReading ts v →
        WindowAggNode.handle_message msg
          = [⟨MessageType.DATA, { count := 1, sum := v, min_v := v, max_v := v }⟩]) ∧
    (∀ tag, msg.payload = AggPayload.other tag →
        WindowAggNode.handle_message msg = []) := by
  constructor
  · intro ts v h
    simp [WindowAggNode.handle_message, h, per_item_agg]
  · intro tag h
    simp [WindowAggNode.handle_message, h]

/-- Witness for C6 at concrete inputs. -/
theorem window_agg_node_emit_witness :
    WindowAggNode.handle_message ⟨MessageType.DATA, AggPayload.sensorReading 0 2⟩
        = [⟨MessageType.DATA, { count := 1, sum := 2, min_v := 2, max_v := 2 }⟩] ∧
    WindowAggNode.handle_message ⟨MessageType.DATA, AggPayload.other "int"⟩ = [] :=
  ⟨(window_agg_node_emit _).1 0 2 rfl, (window_agg_node_emit _).2 "int" rfl⟩

/-- C10: `WindowAgg.avg` is total: it returns 0 when `count = 0` and
`sum / count` otherwise, so the division branch is taken only under
`count ≠ 0`. -/
theorem window_agg_avg_total (w : WindowAgg) :
    (w.count = 0 → w.avg = 0) ∧
    (w.count ≠ 0 → w.avg = w.sum / (w.count : ℚ)) := by
  constructor
  · intro h
    simp [WindowAgg.avg, h]
  · intro h
    simp [WindowAgg.avg, h]

/-- Witness for C10 at concrete aggregates: the zero-count aggregate has
average 0 even with a non-zero sum, and a count-2 aggregate divides. -/
theorem window_agg_avg_total_witness :
    WindowAgg.avg { count := 0, sum := 5, min_v := 1, max_v := 4 } = 0 ∧
    WindowAgg.avg { count := 2, sum := 6, min_v := 1, max_v := 5 } = 6 / 2 := by
  refine ⟨(window_agg_avg_total _).1 rfl, ?_⟩
  have h := (window_agg_avg_total { count := 2, sum := 6, min_v := 1, max_v := 5 }).2
    (by decide)
  simpa using h

/-! ## KillSwitch (src/pipeline_demo/control.py) -/

/-- State of `KillSwitch`: the `triggered` flag. -/
structure KillSwitch where
  triggered : Bool
deriving DecidableEq, Repr

/-- The body of `KillSwitch._handle_tick`: if already triggered, do nothing;
otherwise set `triggered` and emit one CONTROL message with payload
`shutdown` on port `out`. -/
def KillSwitch.handle_tick (s : KillSwitch) : KillSwitch × List (Message String) :=
  if s.triggered then (s, [])
  else ({ triggered := true }, [⟨MessageType.CONTROL, "shutdown"⟩])

/-- Running `n` consecutive ticks of the kill switch, collecting every
emitted message in order. -/
def KillSwitch.run (s : KillSwitch) : Nat → KillSwitch × List (Message String)
  | 0 => (s, [])
  | n + 1 =>
      let t := s.handle_tick
      let r := t.1.run n
      (r.1, t.2 ++ r.2)

/-- The merge function of the control edge in `src/pipeline_demo/main.py`:
`coalesce(lambda a, b: a)`. -/
def control_coalesce (a _b : String) : String := a

theorem kill_switch_run_triggered (n : Nat) :
    KillSwitch.run { triggered := true } n = ({ triggered := true }, []) := by
  induction n with
  | zero => rfl
  | succ n ih => simp [KillSwitch.run, KillSwitch.handle_tick, ih]

/-! ## Bounded recent-item buffers (streaming_coalesce SinkNode and
pipeline_demo SlowSink) -/

/-- The buffer update shared by `SinkNode._handle_message` and
`SlowSink._handle_message`: append the new item, then `pop(0)` when the
length exceeds `keep`. -/
def buf_push {α : Type} (k : Nat) (l : List α) (x : α) : List α :=
  let b := l ++ [x]
  if k < b.length then b.drop 1 else b

/-- State of `SinkNode` in `streaming_coalesce/main.py`: `_keep` and `_buf`. -/
structure SinkNodeState where
  keep : Nat
  buf : List WindowAgg
deriving Repr

/-- The state effect of `SinkNode._handle_message`: append the aggregate to
`_buf`, and `pop(0)` when `len(_buf) > _keep`. -/
def SinkNode.handle_message (s : SinkNodeState) (agg : WindowAgg) : SinkNodeState :=
  let b := s.buf ++ [agg]
  if s.keep < b.length then { s with buf := b.drop 1 } else { s with buf := b }

/-- Delivering a list of aggregates to a fresh `SinkNode` with bound `k`. -/
def SinkNode.run (k : Nat) (ms : List WindowAgg) : SinkNodeState :=
  ms.foldl SinkNode.handle_message { keep := k, buf := [] }

theorem suffix_append_single {α : Type} {l h : List α} (hs : l <:+ h) (x : α) :
    l ++ [x] <:+ h ++ [x] := by
  obtain ⟨t, rfl⟩ := hs
  exact ⟨t, by simp⟩

theorem buf_push_suffix {α : Type} (k : Nat) {l hist : List α} (x : α)
    (hs : l <:+ hist) (hl : l.length = min k hist.length) :
    buf_push k l x <:+ hist ++ [x] ∧
      (buf_push k l x).length = min k (hist.length + 1) := by
  unfold buf_push
  by_cases hc : k < (l ++ [x]).length
  · rw [if_pos hc]
    refine ⟨(List.drop_suffix 1 (l ++ [x])).trans (suffix_append_single hs x), ?_⟩
    simp only [List.length_append, List.length_cons, List.length_nil,
      List.length_drop] at *
    omega
  · rw [if_neg hc]
    refine ⟨suffix_append_single hs x, ?_⟩
    simp only [List.length_append, List.length_cons, List.length_nil] at *
    omega

theorem foldl_buf_push_invariant {α : Type} (k : Nat) (ms : List α) :
    ms.foldl (buf_push k) [] <:+ ms ∧
      (ms.foldl (buf_push k) []).length = min k ms.length := by
  induction ms using List.reverseRecOn with
  | nil => simp
  | append_singleton ms x ih =>
      rw [List.foldl_append]
      simp only [List.foldl_cons, List.foldl_nil]
      have h := buf_push_suffix k x ih.1 ih.2
      simpa using h

theorem sink_node_run_eq (k : Nat) (ms : List WindowAgg) :
    SinkNode.run k ms = { keep := k, buf := ms.foldl (buf_push k) [] } := by
  unfold SinkNode.run
  suffices h : ∀ b : List WindowAgg,
      ms.foldl SinkNode.handle_message { keep := k, buf := b }
        = { keep := k, buf := ms.foldl (buf_push k) b } from h []
  induction ms with
  | nil => intro b; rfl
  | cons m ms ih =>
      intro b
      rw [List.foldl_cons, List.foldl_cons]
      have hstep : SinkNode.handle_message { keep := k, buf := b } m
          = { keep := k, buf := buf_push k b m } := by
        simp only [SinkNode.handle_message, buf_push, List.length_append,
          List.length_cons, List.length_nil]
        split <;> rfl
      rw [hstep, ih]

/-! ## Python values

A small model of the Python payloads flowing through the pipeline_demo
examples: dictionaries (association lists), integers, strings and lists. -/

inductive PyVal where
  | dict (entries : List (String × PyVal))
  | int (n : Int)
  | str (s : String)
  | listv (xs : List PyVal)
deriving Repr

/-- Python `isinstance(payload, dict)`. -/
def isDict : PyVal → Bool
  | .dict _ => true
  | _ => false

/-- State of `SlowSink` in `src/examples/pipeline_demo/sink.py`: `keep`,
`count` and `processed_items` (the `delay_s` sleep has no state effect). -/
structure SlowSinkState where
  keep : Nat
  count : Nat
  processed_items : List PyVal

/-- The payload stored by `SlowSink._handle_message`:
`msg.payload if isinstance(msg.payload, dict) else {"_raw": msg.payload}`. -/
def SlowSink.normalize_payload (p : PyVal) : PyVal :=
  if isDict p then p else .dict [("_raw", p)]

/-- The state effect of `SlowSink._handle_message`: on port `in`, increment
`count`, append the (possibly wrapped) payload to `processed_items` and
`pop(0)` when the length exceeds `keep`; on port `control` (and any other
port) no state changes. -/
def SlowSink.handle_message (s : SlowSinkState) (port : String)
    (msg : Message PyVal) : SlowSinkState :=
  if port = "in" then
    let payload := SlowSink.normalize_payload msg.payload
    let b := s.processed_items ++ [payload]
    if s.keep < b.length then
      { s with count := s.count + 1, processed_items := b.drop 1 }
    else
      { s with count := s.count + 1, processed_items := b }
  else s

/-- Delivering a list of (port, message) pairs to a fresh `SlowSink` with
bound `k`. -/
def SlowSink.run (k : Nat) (ds : List (String × Message PyVal)) : SlowSinkState :=
  ds.foldl (fun s d => SlowSink.handle_message s d.1 d.2)
    { keep := k, count := 0, processed_items := [] }

/-- The stored payloads of the deliveries arriving on port `in`, in order. -/
def SlowSink.in_payloads (ds : List (String × Message PyVal)) : List PyVal :=
  (ds.filter fun d => d.1 == "in").map fun d =>
    SlowSink.normalize_payload d.2.payload

theorem slow_sink_run_eq (k : Nat) (ds : List (String × Message PyVal)) :
    (SlowSink.run k ds).processed_items
        = (SlowSink.in_payloads ds).foldl (buf_push k) []
      ∧ (SlowSink.run k ds).keep = k := by
  unfold SlowSink.run SlowSink.in_payloads
  suffices h : ∀ (b : List PyVal) (c kk : Nat),
      (ds.foldl (fun s d => SlowSink.handle_message s d.1 d.2)
          { keep := kk, count := c, processed_items := b }).processed_items
        = (((ds.filter fun d => d.1 == "in").map fun d =>
            SlowSink.normalize_payload d.2.payload).foldl (buf_push kk) b)
      ∧ (ds.foldl (fun s d => SlowSink.handle_message s d.1 d.2)
          { keep := kk, count := c, processed_items := b }).keep = kk from
    h [] 0 k
  induction ds with
  | nil => intro b c kk; exact ⟨rfl, rfl⟩
  | cons d ds ih =>
      intro b c kk
      rw [List.foldl_cons]
      by_cases hp : d.1 = "in"
      · have hstep : SlowSink.handle_message { keep := kk, count := c, processed_items := b } d.1 d.2
            = { keep := kk, count := c + 1,
                processed_items := buf_push kk b (SlowSink.normalize_payload d.2.payload) } := by
          simp only [SlowSink.handle_message, if_pos hp, buf_push,
            List.length_append, List.length_cons, List.length_nil]
          split <;> rfl
        rw [hstep]
        have hfil : (d :: ds).filter (fun d => d.1 == "in")
            = d :: ds.filter (fun d => d.1 == "in") := by
          simp [List.filter_cons, hp]
        rw [hfil] at *
        simpa using ih (buf_push kk b (SlowSink.normalize_payload d.2.payload)) (c + 1) kk
      · have hstep : SlowSink.handle_message { keep := kk, count := c, processed_items := b } d.1 d.2
            = { keep := kk, count := c, processed_items := b } := by
          simp [SlowSink.handle_message, hp]
        rw [hstep]
        have hfil : (d :: ds).filter (fun d => d.1 == "in")
            = ds.filter (fun d => d.1 == "in") := by
          simp [List.filter_cons, hp]
        rw [hfil]
        exact ih b c kk

/-! ## Claim theorems: C7, C9 -/

/-- C7: the kill switch emits the CONTROL message `shutdown` at most once
across any number of ticks; from a fresh (untriggered) switch any positive
number of ticks emits it exactly once; and the control edge merge function
`lambda a, b: a` is idempotent on identical payloads, so repeated shutdown
signals coalesce to a single one. -/
theorem kill_switch_shutdown_once :
    (∀ (s : KillSwitch) (n : Nat), (s.run n).2.length ≤ 1) ∧
    (∀ n : Nat, 1 ≤ n →
        (KillSwitch.run { triggered := false } n).2
          = [⟨MessageType.CONTROL, "shutdown"⟩]) ∧
    (∀ a : String, control_coalesce a a = a) := by
  have hfresh : ∀ n : Nat, 1 ≤ n →
      (KillSwitch.run { triggered := false } n).2
        = [⟨MessageType.CONTROL, "shutdown"⟩] := by
    intro n hn
    cases n with
    | zero => omega
    | succ m =>
        simp [KillSwitch.run, KillSwitch.handle_tick, kill_switch_run_triggered]
  refine ⟨?_, hfresh, fun a => rfl⟩
  intro s n
  cases s with
  | mk triggered =>
      cases triggered with
      | true => simp [kill_switch_run_triggered]
      | false =>
          cases n with
          | zero => simp [KillSwitch.run]
          | succ m => rw [hfresh (m + 1) (by omega)]; simp

/-- Witness for C7: three ticks of a fresh kill switch emit exactly one
shutdown message. -/
theorem kill_switch_shutdown_once_witness :
    (KillSwitch.run { triggered := false } 3).2
      = [⟨MessageType.CONTROL, "shutdown"⟩] :=
  kill_switch_shutdown_once.2.1 3 (by decide)

/-- C9: starting from an empty buffer, the recent-item buffers of both
`SinkNode` (streaming_coalesce) and `SlowSink` (pipeline_demo) always hold
at most `keep` items, and what they hold is exactly the most recent items:
the buffer is a suffix of the delivered history of maximal length
`min keep (history length)`. -/
theorem recent_buffer_bounded (k : Nat) (ms : List WindowAgg)
    (ds : List (String × Message PyVal)) :
    ((SinkNode.run k ms).buf.length ≤ k ∧
      (SinkNode.run k ms).buf <:+ ms ∧
      (SinkNode.run k ms).buf.length = min k ms.length) ∧
    ((SlowSink.run k ds).processed_items.length ≤ k ∧
      (SlowSink.run k ds).processed_items <:+ SlowSink.in_payloads ds ∧
      (SlowSink.run k ds).processed_items.length
        = min k (SlowSink.in_payloads ds).length) := by
  constructor
  · rw [sink_node_run_eq]
    have h := foldl_buf_push_invariant k ms
    exact ⟨by rw [h.2]; omega, h.1, h.2⟩
  · rw [(slow_sink_run_eq k ds).1]
    have h := foldl_buf_push_invariant k (SlowSink.in_payloads ds)
    exact ⟨by rw [h.2]; omega, h.1, h.2⟩

/-! ## Validator (src/examples/pipeline_demo/validator.py) -/

/-- Python runtime errors relevant to the validator: the `TypeError` raised
by a membership test on a non-container. -/
inductive PyError where
  | typeError
deriving DecidableEq, Repr

/-- Substring containment, as Python evaluates `needle in hay` for strings. -/
def strContains (needle hay : String) : Bool :=
  (List.range (hay.toList.length + 1)).any fun i =>
    needle.toList.isPrefixOf (hay.toList.drop i)

/-- Python membership `key in payload`: key lookup for a dict, element
equality for a list, substring test for a string, and a `TypeError` for an
integer (not a container). -/
def pyContains (key : String) : PyVal → Except PyError Bool
  | .dict entries => .ok (entries.any fun e => e.1 == key)
  | .listv xs => .ok (xs.any fun x =>
      match x with
      | .str s => s == key
      | _ => false)
  | .str s => .ok (strContains key s)
  | .int _ => .error .typeError

/-- The condition `isinstance(payload, dict) and "id" in payload`
(short-circuiting, so no membership test is run on a non-dict here). -/
def dict_has_id : PyVal → Bool
  | .dict entries => entries.any fun e => e.1 == "id"
  | _ => false

/-- Counters of `Validator`: `seen`, `valid`, `invalid`. -/
structure ValidatorState where
  seen : Int
  valid : Int
  invalid : Int
deriving DecidableEq, Repr

/-- Result of one `Validator._handle_message` call: the updated counters,
the messages emitted on port `out`, and the uncaught exception, if any. -/
structure ValidatorResult where
  state : ValidatorState
  emitted : List (Message PyVal)
  raised : Option PyError

/-- The body of `Validator._handle_message`: ignore ports other than `in`;
increment `seen`; a dict containing key `id` increments `valid` and is
re-emitted as a DATA message; otherwise `invalid` is incremented and then
the unguarded diagnostic test `"id" not in payload` runs, which raises
`TypeError` when the payload is not a container (the periodic stats log has
no state effect). -/
def Validator.handle_message (s : ValidatorState) (port : String)
    (msg : Message PyVal) : ValidatorResult :=
  if port ≠ "in" then ⟨s, [], none⟩
  else
    let s1 : ValidatorState := { s with seen := s.seen + 1 }
    if dict_has_id msg.payload then
      ⟨{ s1 with valid := s1.valid + 1 }, [⟨MessageType.DATA, msg.payload⟩], none⟩
    else
      let s2 : ValidatorState := { s1 with invalid := s1.invalid + 1 }
      match pyContains "id" msg.payload with
      | .ok _ => ⟨s2, [], none⟩
      | .error e => ⟨s2, [], some e⟩

/-! ## Claim theorems: C8 -/

/-- C8 counterexample: delivering the integer payload `5` on port `in` from
fresh counters does raise `TypeError`, but the invariant
`seen = valid + invalid` is NOT broken at the raise: `invalid` was already
incremented before the failing membership test, so the state at the raise is
`seen = 1, valid = 0, invalid = 1`. -/
theorem validator_invariant_not_broken_cex :
    (Validator.handle_message ⟨0, 0, 0⟩ "in" ⟨MessageType.DATA, PyVal.int 5⟩).raised
        = some PyError.typeError ∧
    (Validator.handle_message ⟨0, 0, 0⟩ "in" ⟨MessageType.DATA, PyVal.int 5⟩).state
        = ⟨1, 0, 1⟩ ∧
    (1 : Int) = 0 + 1 := by
  refine ⟨rfl, rfl, by norm_num⟩

/-- C8 amended: every delivery on port `in` increments `seen` by one and
preserves `seen = valid + invalid` — even on the runs where the callback
raises, because `invalid` is incremented before the raising test.  A dict
payload never raises and increments exactly one of `valid` (re-emitting the
payload as a DATA message iff it contains key `id`) or `invalid` (emitting
nothing); an integer payload raises `TypeError` and emits nothing. -/
theorem validator_seen_counts_invariant (s : ValidatorState) (msg : Message PyVal)
    (hinv : s.seen = s.valid + s.invalid) :
    (Validator.handle_message s "in" msg).state.seen = s.seen + 1 ∧
    (Validator.handle_message s "in" msg).state.seen
        = (Validator.handle_message s "in" msg).state.valid
          + (Validator.handle_message s "in" msg).state.invalid ∧
    (∀ entries, msg.payload = PyVal.dict entries →
        (Validator.handle_message s "in" msg).raised = none ∧
        (dict_has_id msg.payload = true →
            (Validator.handle_message s "in" msg).state.valid = s.valid + 1 ∧
            (Validator.handle_message s "in" msg).state.invalid = s.invalid ∧
            (Validator.handle_message s "in" msg).emitted
              = [⟨MessageType.DATA, msg.payload⟩]) ∧
        (dict_has_id msg.payload = false →
            (Validator.handle_message s "in" msg).state.invalid = s.invalid + 1 ∧
            (Validator.handle_message s "in" msg).state.valid = s.valid ∧
            (Validator.handle_message s "in" msg).emitted = [])) ∧
    (∀ n, msg.payload = PyVal.int n →
        (Validator.handle_message s "in" msg).raised = some PyError.typeError ∧
        (Validator.handle_message s "in" msg).emitted = []) := by
  by_cases hd : dict_has_id msg.payload
  · have hres : Validator.handle_message s "in" msg
        = ⟨{ seen := s.seen + 1, valid := s.valid + 1, invalid := s.invalid },
           [⟨MessageType.DATA, msg.payload⟩], none⟩ := by
      simp [Validator.handle_message, hd]
    refine ⟨by rw [hres], by rw [hres]; simp; omega, ?_, ?_⟩
    · intro entries he
      refine ⟨by rw [hres], fun _ => ⟨by rw [hres], by rw [hres], by rw [hres]⟩,
        fun hfalse => absurd hd (by simp [hfalse])⟩
    · intro n he
      rw [he] at hd
      simp [dict_has_id] at hd
  · have hok : ∀ b, pyContains "id" msg.payload = .ok b →
        Validator.handle_message s "in" msg
          = ⟨{ seen := s.seen + 1, valid := s.valid, invalid := s.invalid + 1 },
             [], none⟩ := by
      intro b hb
      simp [Validator.handle_message, hd, hb]
    have herr : ∀ e, pyContains "id" msg.payload = .error e →
        Validator.handle_message s "in" msg
          = ⟨{ seen := s.seen + 1, valid := s.valid, invalid := s.invalid + 1 },
             [], some e⟩ := by
      intro e he
      simp [Validator.handle_message, hd, he]
    have hmain : (Validator.handle_message s "in" msg).state
        = { seen := s.seen + 1, valid := s.valid, invalid := s.invalid + 1 } := by
      cases hc : pyContains "id" msg.payload with
      | ok b => rw [hok b hc]
      | error e => rw [herr e hc]
    refine ⟨by rw [hmain], by rw [hmain]; simp; omega, ?_, ?_⟩
    · intro entries he
      have hc : pyContains "id" msg.payload = .ok (entries.any fun e => e.1 == "id") := by
        rw [he]; rfl
      refine ⟨by rw [hok _ hc], fun htrue => absurd htrue (by simp [hd]), ?_⟩
      intro _
      rw [hok _ hc]
      exact ⟨rfl, rfl, rfl⟩
    · intro n he
      have hc : pyContains "id" msg.payload = .error .typeError := by
        rw [he]; rfl
      rw [herr _ hc]
      exact ⟨rfl, rfl⟩

/-- Witness for C8: the amended invariant applied to fresh counters and the
integer payload `5`. -/
theorem validator_seen_counts_witness :
    (Validator.handle_message ⟨0, 0, 0⟩ "in" ⟨MessageType.DATA, PyVal.int 5⟩).state.seen
        = (Validator.handle_message ⟨0, 0, 0⟩ "in" ⟨MessageType.DATA, PyVal.int 5⟩).state.valid
          + (Validator.handle_message ⟨0, 0, 0⟩ "in" ⟨MessageType.DATA, PyVal.int 5⟩).state.invalid := by
  have h := validator_seen_counts_invariant ⟨0, 0, 0⟩
    ⟨MessageType.DATA, PyVal.int 5⟩ (by norm_num)
  exact h.2.1

/-! ## Worker (src/tutorials/03-control-plane-priorities.py) -/

/-- Payloads of the control-plane tutorial: integers on the data port and
strings on the control port. -/
inductive WPayload where
  | intv (n : Int)
  | strv (s : String)
deriving Repr

/-- Python `str(payload)` for the tutorial payloads. -/
def wstr : WPayload → String
  | .strv s => s
  | .intv n => toString n

/-- Python whitespace as stripped by `str.strip()`. -/
def is_space (c : Char) : Bool :=
  c == ' ' || c == '\t' || c == '\n' || c == '\r' ||
    c.toNat == 11 || c.toNat == 12

/-- Python `str(msg.payload).strip().lower()`: strip leading and trailing
whitespace, then lowercase each character. -/
def normalize_cmd (s : String) : String :=
  String.mk
    ((((s.data.dropWhile is_space).reverse.dropWhile is_space).reverse).map
      Char.toLower)

/-- A delivery to the worker: the input port it arrives on and the message. -/
structure Delivery where
  port : String
  msg : Message WPayload
deriving Repr

/-- The body of `Worker._handle_message`, with the worker state being its
`_mode` string.  A CONTROL message on port `ctl` whose normalized payload
is `normal` or `quiet` sets the mode and returns; a message on port `in`
is processed (printed and re-emitted as DATA on `out`) iff the mode is not
`quiet`.  The returned list is the list of emitted messages, so processing
a data message emits exactly one message. -/
def Worker.handle_message (mode : String) (d : Delivery) :
    String × List (Message WPayload) :=
  if d.port = "ctl" ∧ d.msg.type = MessageType.CONTROL then
    let cmd := normalize_cmd (wstr d.msg.payload)
    (if cmd = "normal" ∨ cmd = "quiet" then cmd else mode, [])
  else if d.port = "in" ∧ mode ≠ "quiet" then
    (mode, [⟨MessageType.DATA, d.msg.payload⟩])
  else
    (mode, [])

/-- Folding a sequence of deliveries through the worker, counting how many
data messages were processed (each processed data message emits exactly
one message, and control handling emits none). -/
def Worker.run (mode : String) (ds : List Delivery) : String × Nat :=
  ds.foldl (fun acc d =>
    let r := Worker.handle_message acc.1 d
    (r.1, acc.2 + r.2.length)) (mode, 0)

/-- A delivery that can switch the worker out of quiet mode: a CONTROL
message on port `ctl` normalizing to `normal`. -/
def sets_normal (d : Delivery) : Bool :=
  d.port == "ctl" && d.msg.type == MessageType.CONTROL
    && normalize_cmd (wstr d.msg.payload) == "normal"

theorem worker_quiet_step (d : Delivery) (hd : sets_normal d = false) :
    Worker.handle_message "quiet" d = ("quiet", []) := by
  unfold Worker.handle_message
  by_cases hc : d.port = "ctl" ∧ d.msg.type = MessageType.CONTROL
  · rw [if_pos hc]
    have hn : normalize_cmd (wstr d.msg.payload) ≠ "normal" := by
      intro h
      simp [sets_normal, hc.1, hc.2, h] at hd
    by_cases hq : normalize_cmd (wstr d.msg.payload) = "quiet"
    · simp [hq]
    · simp [hn, hq]
  · rw [if_neg hc]
    simp

/-! ## Claim theorems: C4 -/

/-- C4: once the worker has handled a CONTROL message on port `ctl` whose
payload normalizes to `quiet`, its mode is `quiet`, and over any subsequent
sequence of deliveries containing no CONTROL `normal` message on `ctl` it
processes zero data messages (nothing printed, nothing emitted) and stays
quiet. -/
theorem worker_quiet_after_control (mode : String) (d : Delivery)
    (rest : List Delivery)
    (hd : d.port = "ctl" ∧ d.msg.type = MessageType.CONTROL ∧
          normalize_cmd (wstr d.msg.payload) = "quiet")
    (hrest : ∀ d' ∈ rest, sets_normal d' = false) :
    (Worker.handle_message mode d).1 = "quiet" ∧
    Worker.run (Worker.handle_message mode d).1 rest = ("quiet", 0) := by
  obtain ⟨hp, ht, hq⟩ := hd
  have hmode : (Worker.handle_message mode d).1 = "quiet" := by
    unfold Worker.handle_message
    rw [if_pos ⟨hp, ht⟩]
    simp [hq]
  refine ⟨hmode, ?_⟩
  rw [hmode]
  unfold Worker.run
  suffices h : ∀ c : Nat, rest.foldl (fun acc d =>
      let r := Worker.handle_message acc.1 d
      (r.1, acc.2 + r.2.length)) ("quiet", c) = ("quiet", c) from h 0
  clear hmode hp ht hq d mode
  induction rest with
  | nil => intro c; rfl
  | cons d ds ih =>
      intro c
      have hdn : sets_normal d = false := hrest d (by simp)
      rw [List.foldl_cons]
      have hstep := worker_quiet_step d hdn
      simp only [hstep, List.length_nil, Nat.add_zero]
      exact ih (fun d' hm => hrest d' (by simp [hm])) c

/-- Witness for C4: after the quiet CONTROL message, two data deliveries on
port `in` are both ignored. -/
theorem worker_quiet_after_control_witness :
    Worker.run
      (Worker.handle_message "normal"
        ⟨"ctl", ⟨MessageType.CONTROL, WPayload.strv "quiet"⟩⟩).1
      [⟨"in", ⟨MessageType.DATA, WPayload.intv 1⟩⟩,
       ⟨"in", ⟨MessageType.DATA, WPayload.intv 2⟩⟩] = ("quiet", 0) :=
  (worker_quiet_after_control "normal"
    ⟨"ctl", ⟨MessageType.CONTROL, WPayload.strv "quiet"⟩⟩
    [⟨"in", ⟨MessageType.DATA, WPayload.intv 1⟩⟩,
     ⟨"in", ⟨MessageType.DATA, WPayload.intv 2⟩⟩]
    ⟨rfl, rfl, by decide⟩ (by decide)).2

/-! ## FastProducer and backpressure policies
(src/tutorials/02-backpressure-policies.py) -/

/-- State of `FastProducer`: the limit `_n` and the counter `_i`. -/
structure FastProducer where
  n : Nat
  i : Nat
deriving DecidableEq, Repr

/-- The body of `FastProducer._handle_tick`: while `_i < _n`, emit the DATA
payload `_i` and increment `_i`; afterwards do nothing. -/
def FastProducer.handle_tick (p : FastProducer) : FastProducer × Option Nat :=
  if p.i < p.n then ({ p with i := p.i + 1 }, some p.i) else (p, none)

/-- Modelled from the spec: the Drop and Latest overflow policies of the
edge layer (the meridian core is not part of this repository).  On a put
into a full edge, Drop discards the new message and Latest discards the
oldest queued message and enqueues the new one; a put into a non-full edge
appends. -/
inductive OverflowPolicy where
  | drop
  | latest
deriving DecidableEq, Repr

/-- Modelled from the spec: `try_put` of a capacity-`cap` edge under
policy `pol`. -/
def edge_put (pol : OverflowPolicy) (cap : Nat) (q : List Nat) (v : Nat) :
    List Nat :=
  if q.length < cap then q ++ [v]
  else
    match pol with
    | .drop => q
    | .latest => q.drop 1 ++ [v]

/-- Run state of the producer/edge/consumer graph: the producer, the edge
queue, the sequence of payloads delivered to `SlowConsumer` so far, and the
ghost list of all payloads the producer has emitted. -/
structure PCState where
  producer : FastProducer
  queue : List Nat
  delivered : List Nat
  emitted : List Nat
deriving DecidableEq, Repr

/-- A scheduler step: a producer tick, or delivery of the head of the edge
queue to the consumer. -/
inductive PCStep where
  | tick
  | deliver
deriving DecidableEq, Repr

/-- Modelled from the spec: one scheduling step.  A tick runs
`FastProducer._handle_tick` and puts any emitted payload on the edge; a
delivery removes the queue head and hands it to the consumer (whose
`_handle_message` only prints and sleeps, so the delivered payload is just
recorded). -/
def pc_step (pol : OverflowPolicy) (cap : Nat) (s : PCState) :
    PCStep → PCState
  | .tick =>
      match s.producer.handle_tick with
      | (p', none) => { s with producer := p' }
      | (p', some v) =>
          { s with
              producer := p'
              queue := edge_put pol cap s.queue v
              emitted := s.emitted ++ [v] }
  | .deliver =>
      match s.queue with
      | [] => s
      | v :: rest =>
          { s with queue := rest, delivered := s.delivered ++ [v] }

/-- Running a sequence of steps from the initial state: fresh producer with
limit `n`, empty queue, nothing delivered. -/
def pc_run (pol : OverflowPolicy) (cap n : Nat) (steps : List PCStep) : PCState :=
  steps.foldl (pc_step pol cap)
    { producer := { n := n, i := 0 }, queue := [], delivered := [], emitted := [] }

/-- The invariant of the producer/edge/consumer runs: the producer counter
never exceeds `n`, the ghost emission list is exactly `0, 1, ..., i-1`, and
the delivered prefix followed by the queued messages is a subsequence of the
emissions. -/
def pc_inv (n : Nat) (s : PCState) : Prop :=
  s.producer.n = n ∧ s.producer.i ≤ n ∧
    s.emitted = List.range s.producer.i ∧
    (s.delivered ++ s.queue).Sublist s.emitted

theorem edge_put_sublist (pol : OverflowPolicy) (cap : Nat) (d q : List Nat)
    (v : Nat) : (d ++ edge_put pol cap q v).Sublist ((d ++ q) ++ [v]) := by
  unfold edge_put
  by_cases hfull : q.length < cap
  · rw [if_pos hfull, ← List.append_assoc]
  · rw [if_neg hfull]
    cases pol with
    | drop => exact List.sublist_append_left (d ++ q) [v]
    | latest =>
        rw [← List.append_assoc]
        exact List.Sublist.append
          ((List.drop_sublist 1 q).append_left d) (List.Sublist.refl [v])

theorem pc_step_inv (pol : OverflowPolicy) (cap n : Nat) (s : PCState)
    (st : PCStep) (h : pc_inv n s) : pc_inv n (pc_step pol cap s st) := by
  obtain ⟨hn, hi, hem, hsub⟩ := h
  cases st with
  | tick =>
      by_cases hlt : s.producer.i < s.producer.n
      · have htick : s.producer.handle_tick
            = ({ n := s.producer.n, i := s.producer.i + 1 }, some s.producer.i) := by
          simp [FastProducer.handle_tick, hlt]
        simp only [pc_step, htick]
        refine ⟨hn, ?_, ?_, ?_⟩
        · show s.producer.i + 1 ≤ n
          omega
        · show s.emitted ++ [s.producer.i] = List.range (s.producer.i + 1)
          rw [hem, List.range_succ]
        · show (s.delivered ++ edge_put pol cap s.queue s.producer.i).Sublist
            (s.emitted ++ [s.producer.i])
          exact (edge_put_sublist pol cap s.delivered s.queue s.producer.i).trans
            (hsub.append (List.Sublist.refl _))
      · have htick : s.producer.handle_tick = (s.producer, none) := by
          simp [FastProducer.handle_tick, hlt]
        simp only [pc_step, htick]
        exact ⟨hn, hi, hem, hsub⟩
  | deliver =>
      cases hq : s.queue with
      | nil =>
          simp only [pc_step, hq]
          exact ⟨hn, hi, hem, hsub⟩
      | cons v rest =>
          simp only [pc_step, hq]
          refine ⟨hn, hi, hem, ?_⟩
          have hre : (s.delivered ++ [v]) ++ rest = s.delivered ++ (v :: rest) := by
            simp
          rw [hre]
          rw [hq] at hsub
          exact hsub

theorem pc_foldl_inv (pol : OverflowPolicy) (cap n : Nat) (steps : List PCStep) :
    ∀ s0 : PCState, pc_inv n s0 →
      pc_inv n (steps.foldl (pc_step pol cap) s0) := by
  induction steps with
  | nil => intro s0 h; exact h
  | cons st sts ih =>
      intro s0 h
      rw [List.foldl_cons]
      exact ih _ (pc_step_inv pol cap n s0 st h)

/-! ## Claim theorems: C5 -/

/-- C5: in the backpressure tutorial graphs, over any interleaving of
producer ticks and deliveries through a Drop- or Latest-policy edge of any
capacity, `FastProducer(n)` emits exactly the payloads `0, 1, ..., i-1` in
strictly increasing order (one per tick, none once `i` reaches `n`), and
the sequence delivered to `SlowConsumer` is a subsequence of
`0, 1, ..., n-1` (hence strictly increasing) with at most `n` elements. -/
theorem fast_producer_delivery_increasing (pol : OverflowPolicy)
    (cap n : Nat) (steps : List PCStep) :
    (pc_run pol cap n steps).emitted
        = List.range (pc_run pol cap n steps).producer.i ∧
    (pc_run pol cap n steps).producer.i ≤ n ∧
    (pc_run pol cap n steps).delivered.Sublist (List.range n) ∧
    (pc_run pol cap n steps).delivered.length ≤ n := by
  have hinv : pc_inv n (pc_run pol cap n steps) :=
    pc_foldl_inv pol cap n steps _ ⟨rfl, Nat.zero_le n, by simp, by simp⟩
  obtain ⟨hn, hi, hem, hsub⟩ := hinv
  have hdel : (pc_run pol cap n steps).delivered.Sublist (List.range n) := by
    have h1 : (pc_run pol cap n steps).delivered.Sublist
        ((pc_run pol cap n steps).delivered ++ (pc_run pol cap n steps).queue) :=
      List.sublist_append_left _ _
    have h2 := h1.trans hsub
    rw [hem] at h2
    exact h2.trans (List.range_sublist.mpr hi)
  refine ⟨hem, hi, hdel, ?_⟩
  have := hdel.length_le
  simpa using this

/-! ## Hello graph (src/examples/hello_graph/) -/

/-- State of `ProducerNode`: `max_count`, `current_value`, `count_emitted`
(`start_value` defaults to 0 and is the initial `current_value`). -/
structure ProducerState where
  max_count : Nat
  current_value : Int
  count_emitted : Nat
deriving DecidableEq, Repr

/-- The body of `ProducerNode._handle_tick`
(src/examples/hello_graph/producer.py): once `count_emitted` has reached
`max_count` the tick only logs; otherwise it emits one DATA message with
payload `current_value` and increments both `current_value` and
`count_emitted`. -/
def producer_handle_tick (s : ProducerState) : ProducerState × Option Int :=
  if s.max_count ≤ s.count_emitted then (s, none)
  else
    ({ s with
        current_value := s.current_value + 1
        count_emitted := s.count_emitted + 1 },
      some s.current_value)

/-- The body of `Consumer._handle_message`
(src/examples/hello_graph/consumer.py): messages on ports other than `in`
are ignored; a payload arriving on `in` is appended to `values`. -/
def consumer_handle_message (values : List Int) (port : String)
    (payload : Int) : List Int :=
  if port ≠ "in" then values else values ++ [payload]

/-- Run state of the hello graph: producer state, the Block-policy edge
queue, and the consumer's `values` list. -/
structure HelloState where
  producer : ProducerState
  queue : List Int
  values : List Int
deriving DecidableEq, Repr

/-- A scheduling step of the hello graph: a producer tick or a delivery of
the queue head to the consumer. -/
inductive HelloStep where
  | tick
  | deliver
deriving DecidableEq, Repr

/-- Modelled from the spec: the scheduler and the capacity-`cap` Block-policy
edge (the meridian core is not part of this repository).  A tick runs
`ProducerNode._handle_tick`; an emitted payload is enqueued when the edge has
room, while a put into a full Block edge returns BLOCKED without enqueuing
and the producing node is not advanced past the blocked emit (no message is
silently lost on Block).  A delivery removes the queue head and runs
`Consumer._handle_message` on port `in`. -/
def hello_step (cap : Nat) (s : HelloState) : HelloStep → HelloState
  | .tick =>
      match producer_handle_tick s.producer with
      | (p', none) => { s with producer := p' }
      | (p', some v) =>
          if s.queue.length < cap then
            { s with producer := p', queue := s.queue ++ [v] }
          else s
  | .deliver =>
      match s.queue with
      | [] => s
      | v :: rest =>
          { s with
              queue := rest
              values := consumer_handle_message s.values "in" v }

/-- The hello graph as built by `build_graph(max_count=5)`: producer with
`max_count = 5` and `start_value = 0`, connected to the consumer over a
capacity-3 edge. -/
def hello_init : HelloState :=
  { producer := { max_count := 5, current_value := 0, count_emitted := 0 }
    queue := []
    values := [] }

/-- Running a sequence of scheduling steps of the hello graph. -/
def hello_run (steps : List HelloStep) : HelloState :=
  steps.foldl (hello_step 3) hello_init

/-- The run has ended on idle: the edge is drained and the producer has
reached its emission limit, so no further step changes the state. -/
def hello_idle (s : HelloState) : Prop :=
  s.queue = [] ∧ s.producer.max_count ≤ s.producer.count_emitted

/-- Invariant of hello graph runs: the producer counters stay in lockstep
and bounded by 5, and the payloads collected by the consumer followed by
the queued ones are exactly `0, 1, ..., count_emitted - 1` in order. -/
def hello_inv (s : HelloState) : Prop :=
  s.producer.max_count = 5 ∧
    s.producer.count_emitted ≤ 5 ∧
    s.producer.current_value = s.producer.count_emitted ∧
    s.values ++ s.queue = (List.range s.producer.count_emitted).map Int.ofNat

theorem hello_step_inv (cap : Nat) (s : HelloState) (st : HelloStep)
    (h : hello_inv s) : hello_inv (hello_step cap s st) := by
  obtain ⟨hm, hc, hv, hq⟩ := h
  cases st with
  | tick =>
      by_cases hlim : s.producer.max_count ≤ s.producer.count_emitted
      · have htick : producer_handle_tick s.producer = (s.producer, none) := by
          simp [producer_handle_tick, hlim]
        simp only [hello_step, htick]
        exact ⟨hm, hc, hv, hq⟩
      · have htick : producer_handle_tick s.producer
            = ({ max_count := s.producer.max_count,
                 current_value := s.producer.current_value + 1,
                 count_emitted := s.producer.count_emitted + 1 },
               some s.producer.current_value) := by
          simp [producer_handle_tick, hlim]
        simp only [hello_step, htick]
        by_cases hroom : s.queue.length < cap
        · rw [if_pos hroom]
          refine ⟨hm, ?_, ?_, ?_⟩
          · show s.producer.count_emitted + 1 ≤ 5
            omega
          · show s.producer.current_value + 1 = (s.producer.count_emitted + 1 : Nat)
            rw [hv]
            push_cast
            ring
          · show s.values ++ (s.queue ++ [s.producer.current_value])
              = (List.range (s.producer.count_emitted + 1)).map Int.ofNat
            rw [← List.append_assoc, hq, List.range_succ, List.map_append, hv]
            rfl
        · rw [if_neg hroom]
          exact ⟨hm, hc, hv, hq⟩
  | deliver =>
      cases hqq : s.queue with
      | nil =>
          simp only [hello_step, hqq]
          exact ⟨hm, hc, hv, hq⟩
      | cons v rest =>
          simp only [hello_step, hqq]
          refine ⟨hm, hc, hv, ?_⟩
          show consumer_handle_message s.values "in" v ++ rest
            = (List.range s.producer.count_emitted).map Int.ofNat
          rw [← hq, hqq]
          simp [consumer_handle_message]

theorem hello_foldl_inv (cap : Nat) (steps : List HelloStep) :
    ∀ s0 : HelloState, hello_inv s0 →
      hello_inv (steps.foldl (hello_step cap) s0) := by
  induction steps with
  | nil => intro s0 h; exact h
  | cons st sts ih =>
      intro s0 h
      rw [List.foldl_cons]
      exact ih _ (hello_step_inv cap s0 st h)

/-! ## Claim theorems: C1 -/

/-- C1: across any sequence of scheduling steps of the hello graph built
with `max_count = 5`, the producer has emitted exactly the DATA payloads
`0, 1, ..., count_emitted - 1` in order (one per tick, never more than 5),
the consumer holds every delivered payload in order, and when the run ends
on idle the consumer's `values` equals `[0, 1, 2, 3, 4]` and the producer's
`count_emitted` equals 5. -/
theorem hello_graph_run_correct (steps : List HelloStep) :
    (hello_run steps).values ++ (hello_run steps).queue
        = (List.range (hello_run steps).producer.count_emitted).map Int.ofNat ∧
    (hello_run steps).producer.count_emitted ≤ 5 ∧
    (hello_idle (hello_run steps) →
        (hello_run steps).values = [0, 1, 2, 3, 4] ∧
        (hello_run steps).producer.count_emitted = 5) := by
  have hinv : hello_inv (hello_run steps) :=
    hello_foldl_inv 3 steps hello_init ⟨rfl, by decide, rfl, rfl⟩
  obtain ⟨hm, hc, hv, hq⟩ := hinv
  refine ⟨hq, hc, ?_⟩
  rintro ⟨hempty, hlim⟩
  rw [hm] at hlim
  have h5 : (hello_run steps).producer.count_emitted = 5 := by omega
  refine ⟨?_, h5⟩
  have := hq
  rw [hempty, h5, List.append_nil] at this
  rw [this]
  rfl

/-- Witness for C1: five tick/deliver pairs drain the graph to idle with the
expected consumer values. -/
theorem hello_graph_run_correct_witness :
    (hello_run [HelloStep.tick, HelloStep.deliver, HelloStep.tick,
      HelloStep.deliver, HelloStep.tick, HelloStep.deliver, HelloStep.tick,
      HelloStep.deliver, HelloStep.tick, HelloStep.deliver]).values
        = [0, 1, 2, 3, 4] :=
  ((hello_graph_run_correct [HelloStep.tick, HelloStep.deliver, HelloStep.tick,
      HelloStep.deliver, HelloStep.tick, HelloStep.deliver, HelloStep.tick,
      HelloStep.deliver, HelloStep.tick, HelloStep.deliver]).2.2
    (by constructor <;> decide)).1

/-! ## Subgraph validation (spec section 4.5) and the pipeline_demo wiring
(src/pipeline_demo/main.py) -/

/-- A port declaration: name plus advisory schema tag (Python schema types
are modelled by their names; `any` is the wildcard). -/
structure PortDecl where
  name : String
  schema : String
deriving DecidableEq, Repr

/-- A node declaration: name plus its input and output ports. -/
structure NodeDecl where
  name : String
  inputs : List PortDecl
  outputs : List PortDecl
deriving DecidableEq, Repr

/-- An edge declaration: source (node, port) and destination (node, port). -/
structure EdgeDecl where
  src : String × String
  dst : String × String
deriving DecidableEq, Repr

/-- A subgraph declaration: nodes and the edges wiring them. -/
structure SubgraphDecl where
  name : String
  nodes : List NodeDecl
  edges : List EdgeDecl
deriving DecidableEq, Repr

/-- Modelled from the spec: the structured validation errors of section 7
(WiringError), each identifying the offending wiring. -/
inductive WiringError where
  | unknownEndpoint (e : EdgeDecl)
  | duplicateInputEdge (e : EdgeDecl)
  | incompatibleSchema (e : EdgeDecl)
  | duplicateNodeName (n : String)
deriving DecidableEq, Repr

/-- Whether `np` names an OUTPUT port declared on an existing node. -/
def hasOutputPort (g : SubgraphDecl) (np : String × String) : Bool :=
  g.nodes.any fun nd => nd.name == np.1 && nd.outputs.any fun p => p.name == np.2

/-- Whether `np` names an INPUT port declared on an existing node. -/
def hasInputPort (g : SubgraphDecl) (np : String × String) : Bool :=
  g.nodes.any fun nd => nd.name == np.1 && nd.inputs.any fun p => p.name == np.2

/-- Modelled from the spec: validation rule 1 — every referenced
(node, port) exists with the correct direction; the first offending edge is
reported. -/
def check_endpoints (g : SubgraphDecl) : Option WiringError :=
  (g.edges.find? fun e => !(hasOutputPort g e.src && hasInputPort g e.dst)).map
    .unknownEndpoint

/-- The first edge whose destination input port already received an earlier
edge, scanning in wiring order. -/
def first_dup_input (seen : List (String × String)) :
    List EdgeDecl → Option EdgeDecl
  | [] => none
  | e :: rest =>
      if e.dst ∈ seen then some e else first_dup_input (e.dst :: seen) rest

/-- Modelled from the spec: validation rule 2 — every input port has at most
one incoming edge; the first offending wiring is reported. -/
def check_dup_inputs (g : SubgraphDecl) : Option WiringError :=
  (first_dup_input [] g.edges).map .duplicateInputEdge

/-- The schema tag of a named port in a port list. -/
def port_schema (ports : List PortDecl) (pname : String) : Option String :=
  (ports.find? fun p => p.name == pname).map fun p => p.schema

/-- The schema tag of an output endpoint. -/
def out_schema (g : SubgraphDecl) (np : String × String) : Option String :=
  (g.nodes.find? fun nd => nd.name == np.1).bind fun nd =>
    port_schema nd.outputs np.2

/-- The schema tag of an input endpoint. -/
def in_schema (g : SubgraphDecl) (np : String × String) : Option String :=
  (g.nodes.find? fun nd => nd.name == np.1).bind fun nd =>
    port_schema nd.inputs np.2

/-- Two schema tags are compatible when equal or either side is `any`. -/
def compatible_schema (a b : String) : Bool :=
  a == b || a == "any" || b == "any"

/-- Modelled from the spec: validation rule 3 — schema tags on source and
destination must be compatible. -/
def check_schemas (g : SubgraphDecl) : Option WiringError :=
  (g.edges.find? fun e =>
      match out_schema g e.src, in_schema g e.dst with
      | some a, some b => !compatible_schema a b
      | _, _ => false).map
    .incompatibleSchema

/-- The first repeated name in a list, scanning left to right. -/
def first_dup_name (seen : List String) : List String → Option String
  | [] => none
  | x :: rest => if x ∈ seen then some x else first_dup_name (x :: seen) rest

/-- Modelled from the spec: validation rule 4 — no duplicate node names. -/
def check_node_names (g : SubgraphDecl) : Option WiringError :=
  (first_dup_name [] (g.nodes.map fun nd => nd.name)).map .duplicateNodeName

/-- Modelled from the spec: subgraph validation (section 4.5) runs the four
rules in order and returns the first structured error, or `none` on
success. -/
def validate (g : SubgraphDecl) : Option WiringError :=
  check_endpoints g <|> check_dup_inputs g <|> check_schemas g
    <|> check_node_names g

/-- Modelled from the spec: registration validates eagerly and is refused
on a validation error. -/
def register_subgraph (g : SubgraphDecl) : Except WiringError SubgraphDecl :=
  match validate g with
  | some e => .error e
  | none => .ok g

/-- The control edge of `pipeline_demo.build_graph`:
`Edge(("control", c_out), ("sink", s_in), capacity=1, policy=coalesce(...))`,
the second edge wired into the sink's input port `in`. -/
def pipeline_ctrl_edge : EdgeDecl :=
  { src := ("control", "out"), dst := ("sink", "in") }

/-- The wiring built by `build_graph` in `src/pipeline_demo/main.py`:
validator, transformer, sink (SlowSink) and control (KillSwitch) nodes with
their declared ports, and the three edges, two of which target the sink
input port spec `s_in`. -/
def pipeline_demo_graph : SubgraphDecl :=
  { name := "pipeline_demo"
    nodes :=
      [ { name := "validator", inputs := [⟨"in", "dict"⟩],
          outputs := [⟨"out", "dict"⟩] },
        { name := "transformer", inputs := [⟨"in", "dict"⟩],
          outputs := [⟨"out", "dict"⟩] },
        { name := "sink", inputs := [⟨"in", "dict"⟩, ⟨"control", "str"⟩],
          outputs := [] },
        { name := "control", inputs := [], outputs := [⟨"out", "str"⟩] } ]
    edges :=
      [ { src := ("validator", "out"), dst := ("transformer", "in") },
        { src := ("transformer", "out"), dst := ("sink", "in") },
        pipeline_ctrl_edge ] }

theorem first_dup_input_mem_none (es : List EdgeDecl) :
    ∀ seen, first_dup_input seen es = none →
      ∀ x ∈ es, x.dst ∉ seen := by
  induction es with
  | nil => intro seen _ x hx; exact absurd hx (by simp)
  | cons e rest ih =>
      intro seen h x hx
      unfold first_dup_input at h
      by_cases hc : e.dst ∈ seen
      · rw [if_pos hc] at h
        exact absurd h (by simp)
      · rw [if_neg hc] at h
        rcases List.mem_cons.mp hx with rfl | hx2
        · exact hc
        · intro hmem
          exact (ih (e.dst :: seen) h x hx2) (by simp [hmem])

theorem first_dup_input_none (es : List EdgeDecl) :
    ∀ seen, first_dup_input seen es = none →
      (es.map fun e => e.dst).Nodup := by
  induction es with
  | nil => intro seen _; simp
  | cons e rest ih =>
      intro seen h
      unfold first_dup_input at h
      by_cases hc : e.dst ∈ seen
      · rw [if_pos hc] at h
        exact absurd h (by simp)
      · rw [if_neg hc] at h
        have hnotin : e.dst ∉ (rest.map fun e => e.dst) := by
          intro hmem
          obtain ⟨x, hx, hxd⟩ := List.mem_map.mp hmem
          have := first_dup_input_mem_none rest (e.dst :: seen) h x hx
          exact this (by simp [hxd])
        simp only [List.map_cons, List.nodup_cons]
        exact ⟨hnotin, ih _ h⟩

theorem validate_none_dup (g : SubgraphDecl) (h : validate g = none) :
    check_dup_inputs g = none := by
  unfold validate at h
  cases hc : check_endpoints g with
  | some e =>
      rw [hc] at h
      simp at h
  | none =>
      rw [hc] at h
      cases hd : check_dup_inputs g with
      | some e =>
          rw [hd] at h
          simp at h
      | none => rfl

/-! ## Claim theorems: C3 -/

/-- C3: validation of any subgraph in which some input port has more than
one incoming edge returns a structured error (so registration is refused),
and in particular the pipeline_demo wiring — which routes both the
transformer output and the control output into the sink input port `in` —
fails validation with a `duplicateInputEdge` error naming the first
offending edge, the control-to-sink wiring. -/
theorem pipeline_demo_validation_fails :
    (∀ g : SubgraphDecl, ¬ (g.edges.map fun e => e.dst).Nodup →
        validate g ≠ none) ∧
    validate pipeline_demo_graph
        = some (WiringError.duplicateInputEdge pipeline_ctrl_edge) ∧
    register_subgraph pipeline_demo_graph
        = Except.error (WiringError.duplicateInputEdge pipeline_ctrl_edge) := by
  refine ⟨?_, rfl, rfl⟩
  intro g hnd hval
  have hd := validate_none_dup g hval
  unfold check_dup_inputs at hd
  cases hfd : first_dup_input [] g.edges with
  | some e =>
      rw [hfd] at hd
      simp at hd
  | none => exact hnd (first_dup_input_none g.edges [] hfd)

/-- Witness for C3: the pipeline_demo wiring itself has a duplicated input
destination, so the universal part of the claim applies to it. -/
theorem pipeline_demo_validation_fails_witness :
    validate pipeline_demo_graph ≠ none :=
  pipeline_demo_validation_fails.1 pipeline_demo_graph (by decide)

end Meridian
